import Mathlib

/-!
Verification of the posts app of the gulsoyblog repository.

The definitions below are a shallow embedding of `src/posts/models.py`,
`src/posts/forms.py` and `src/posts/views.py`:

* `User` carries the identity attributes the views consult
  (`id`, `is_staff`, `is_superuser`); an unauthenticated caller is `none`
  at type `Option User` (Django's `request.user.is_authenticated = False`).
* `Post` and `Document` mirror the two models; `shared_with` is the set of
  user ids in the sharing join table, `date_posted` an abstract timestamp,
  and `Document.file_path` the resolved storage path `document.file.path`.
* The database is a `Store` (list of post rows and document rows); each
  view becomes a function from a store and request data to a new store
  and/or an outcome value.  `transaction.atomic` commits whenever its block
  exits without a raised exception, which is how the `form_valid` bodies
  are translated (`return self.form_invalid(form)` leaves the block
  normally, hence commits).
-/

structure User where
  id : Nat
  is_staff : Bool
  is_superuser : Bool
deriving DecidableEq

structure Post where
  id : Nat
  title : String
  content : String
  author_id : Nat
  date_posted : Nat
  is_public : Bool
  shared_with : List Nat
deriving DecidableEq

structure Document where
  id : Nat
  post_id : Nat
  file_path : String
  description : String
deriving DecidableEq

structure Store where
  posts : List Post
  documents : List Document
deriving DecidableEq

/-- `PostDetailView.test_func` (src/posts/views.py:56-71): public posts pass for
everyone; private posts pass only for an authenticated author, shared user, or
superuser. -/
def PostDetailView.test_func (user : Option User) (post : Post) : Bool :=
  if post.is_public then true
  else match user with
    | some u =>
        if u.id = post.author_id then true
        else if post.shared_with.contains u.id then true
        else if u.is_superuser then true
        else false
    | none => false

/-- The spec calls `PostDetailView.test_func` the visibility resolver `canView`. -/
def canView (user : Option User) (post : Post) : Bool :=
  PostDetailView.test_func user post

/-- Ordering used by `PostListView` (`ordering = [-date_posted]`): newest first. -/
def postLe (a b : Post) : Prop :=
  b.date_posted ≤ a.date_posted

instance : DecidableRel postLe := fun a b =>
  inferInstanceAs (Decidable (b.date_posted ≤ a.date_posted))

instance : IsTotal Post postLe :=
  ⟨fun a b => Nat.le_total b.date_posted a.date_posted⟩

instance : IsTrans Post postLe :=
  ⟨fun _ _ _ h1 h2 => Nat.le_trans h2 h1⟩

/-- The ORDER BY date_posted DESC step of the list queryset. -/
def sortPosts (ps : List Post) : List Post :=
  List.insertionSort postLe ps

/-- SQL rows produced by the LEFT OUTER JOIN with the sharing join table that
Django emits for `filter(Q(is_public=True) | Q(shared_with=user))`: one row per
shared user id, or a single row with a null join column when the post is shared
with nobody. -/
def joinRows (p : Post) : List (Post × Option Nat) :=
  match p.shared_with with
  | [] => [(p, none)]
  | ids => ids.map (fun i => (p, some i))

/-- The WHERE clause `is_public OR shared_with = user` evaluated on a join row. -/
def rowMatches (u : User) (r : Post × Option Nat) : Bool :=
  r.1.is_public || r.2 == some u.id

/-- The join rows of one post that survive the WHERE clause, projected back to
the post columns. -/
def matchRows (u : User) (p : Post) : List Post :=
  ((joinRows p).filter (rowMatches u)).map Prod.fst

/-- SELECT DISTINCT on post rows: keep the first row of each primary key. -/
def distinctById : List Post → List Post
  | [] => []
  | p :: ps => p :: distinctById (ps.filter (fun q => q.id ≠ p.id))
termination_by l => l.length
decreasing_by
  simp only [List.length_cons]
  exact Nat.lt_succ_of_le (List.length_filter_le _ _)

/-- `PostListView.get_queryset` (src/posts/views.py:31-42): superusers see every
post; other users see the ordered queryset filtered by
`Q(is_public=True) | Q(shared_with=user)` with `.distinct()`. -/
def PostListView.get_queryset (u : User) (posts : List Post) : List Post :=
  let ordered := sortPosts posts
  if u.is_superuser then ordered
  else distinctById (ordered.flatMap (matchRows u))

/-- `PostCreateView.test_func` (src/posts/views.py:95-97). -/
def PostCreateView.test_func (u : User) : Bool :=
  u.is_staff

/-- The spec calls `PostCreateView.test_func` the resolver `canCreate`. -/
def canCreate (u : User) : Bool :=
  PostCreateView.test_func u

/-- `PostUpdateView.test_func` (src/posts/views.py:180-183). -/
def PostUpdateView.test_func (u : User) (post : Post) : Bool :=
  u.id == post.author_id || u.is_superuser

/-- `PostDeleteView.test_func` (src/posts/views.py:200-203). -/
def PostDeleteView.test_func (u : User) (post : Post) : Bool :=
  u.id == post.author_id || u.is_superuser

/-- The spec calls the shared update/delete test the resolver `canModify`. -/
def canModify (u : User) (post : Post) : Bool :=
  PostUpdateView.test_func u post

/-- Outcome of a request to `PostDetailView`. -/
inductive DetailOutcome
  | notFound
  | show (p : Post)
  | redirectLogin
  | redirectPostList
deriving DecidableEq

/-- `PostDetailView` dispatch: `get_object` (404 when the pk is absent), then
`UserPassesTestMixin` runs `test_func`; on failure `handle_no_permission`
(src/posts/views.py:73-79) redirects unauthenticated callers to login and
authenticated ones to the post list. -/
def PostDetailView.run (st : Store) (user : Option User) (pk : Nat) : DetailOutcome :=
  match st.posts.find? (fun p => p.id == pk) with
  | none => .notFound
  | some post =>
      if PostDetailView.test_func user post then .show post
      else match user with
        | none => .redirectLogin
        | some _ => .redirectPostList

/-- The bound fields of a submitted `PostForm` (title, content, is_public,
shared_with — src/posts/forms.py:14-16). -/
structure PostInput where
  title : String
  content : String
  is_public : Bool
  shared_with : List Nat
deriving DecidableEq

/-- One document form of the `DocumentFormSet` (file, description). -/
structure DocInput where
  file_path : String
  description : String
deriving DecidableEq

/-- Outcome of a request to `PostCreateView`. -/
inductive CreateOutcome
  | forbidden
  | invalidForm
  | success (pk : Nat)
deriving DecidableEq

/-- Rows the formset would insert: fresh consecutive ids, linked to the post. -/
def mkDocs (postId firstId : Nat) (docs : List DocInput) : List Document :=
  (List.range docs.length).zipWith
    (fun i d => { id := firstId + i, post_id := postId,
                  file_path := d.file_path, description := d.description })
    docs

/-- `PostCreateView.form_valid` (src/posts/views.py:118-135).  Inside
`transaction.atomic()` the post is saved first; only then is the document
formset validated.  When the formset is invalid the code does
`return self.form_invalid(form)`, which exits the `with` block without an
exception, so the transaction commits and the post row persists while no
document row does.  The fresh post id and timestamp come from the store
collaborator and are parameters here. -/
def PostCreateView.form_valid (st : Store) (u : User) (newId dateNow : Nat)
    (input : PostInput) (docFormsetValid : Bool) (newDocs : List Document) :
    Store × CreateOutcome :=
  let newPost : Post :=
    { id := newId, title := input.title, content := input.content,
      author_id := u.id, date_posted := dateNow,
      is_public := input.is_public, shared_with := input.shared_with }
  let st1 : Store := { st with posts := st.posts ++ [newPost] }
  if docFormsetValid then
    ({ st1 with documents := st1.documents ++ newDocs }, .success newId)
  else
    (st1, .invalidForm)

/-- `PostCreateView` dispatch: `test_func` gate (staff only, redirect via
`handle_no_permission` otherwise), then the post form is validated
(`form_invalid` touches nothing), then `form_valid`. -/
def PostCreateView.run (st : Store) (u : User) (newId firstDocId dateNow : Nat)
    (input : PostInput) (postFormValid docFormsetValid : Bool)
    (docs : List DocInput) : Store × CreateOutcome :=
  if ¬ PostCreateView.test_func u then (st, .forbidden)
  else if ¬ postFormValid then (st, .invalidForm)
  else PostCreateView.form_valid st u newId dateNow input docFormsetValid
        (mkDocs newId firstDocId docs)

/-- One saved change of the inline `DocumentFormSet` (`can_delete=True`):
a new document, a field update of an existing one, or a deletion. -/
inductive DocOp
  | createDoc (d : Document)
  | updateDoc (id : Nat) (d : DocInput)
  | deleteDoc (id : Nat)
deriving DecidableEq

/-- Apply one formset change to the document table, linking rows to `postId`
(`document_formset.instance = self.object`). -/
def applyDocOp (postId : Nat) (docs : List Document) : DocOp → List Document
  | .createDoc d => docs ++ [{ d with post_id := postId }]
  | .updateDoc i din =>
      docs.map (fun d =>
        if d.id = i then
          { d with file_path := din.file_path, description := din.description }
        else d)
  | .deleteDoc i => docs.filter (fun d => d.id ≠ i)

/-- `document_formset.save()` on an update: create/update/delete documents. -/
def saveFormset (postId : Nat) (docs : List Document) (ops : List DocOp) :
    List Document :=
  ops.foldl (applyDocOp postId) docs

/-- Outcome of a request to `PostUpdateView`. -/
inductive UpdateOutcome
  | notFound
  | forbidden (pk : Nat)
  | invalidForm
  | success (pk : Nat)
deriving DecidableEq

/-- `form.save()` on an update: overwrite the bound fields of the post row. -/
def applyPostInput (p : Post) (input : PostInput) : Post :=
  { p with title := input.title, content := input.content,
           is_public := input.is_public, shared_with := input.shared_with }

/-- `PostUpdateView.form_valid` (src/posts/views.py:164-178).  Like create:
the updated post is saved before the formset is checked, and the
`return self.form_invalid(form)` branch leaves `transaction.atomic()`
normally, so the post field changes commit even when the formset is
invalid (the documents stay as they were). -/
def PostUpdateView.form_valid (st : Store) (pk : Nat) (input : PostInput)
    (docFormsetValid : Bool) (ops : List DocOp) : Store × UpdateOutcome :=
  let posts1 := st.posts.map (fun p => if p.id = pk then applyPostInput p input else p)
  let st1 : Store := { st with posts := posts1 }
  if docFormsetValid then
    ({ st1 with documents := saveFormset pk st.documents ops }, .success pk)
  else
    (st1, .invalidForm)

/-- `PostUpdateView` dispatch: object lookup (404), `test_func` gate
(author or superuser, redirect to the post detail otherwise, touching
nothing), post form validation, then `form_valid`. -/
def PostUpdateView.run (st : Store) (u : User) (pk : Nat) (input : PostInput)
    (postFormValid docFormsetValid : Bool) (ops : List DocOp) :
    Store × UpdateOutcome :=
  match st.posts.find? (fun p => p.id == pk) with
  | none => (st, .notFound)
  | some post =>
      if ¬ PostUpdateView.test_func u post then (st, .forbidden pk)
      else if ¬ postFormValid then (st, .invalidForm)
      else PostUpdateView.form_valid st pk input docFormsetValid ops

/-- Outcome of a request to `PostDeleteView`. -/
inductive DeleteOutcome
  | notFound
  | forbidden (pk : Nat)
  | deleted
deriving DecidableEq

/-- `PostDeleteView` dispatch (src/posts/views.py:189-211): object lookup,
`test_func` gate, then the delete.  `Document.post` has
`on_delete=models.CASCADE` (src/posts/models.py:20), so deleting the post
row also deletes every document row referencing it. -/
def PostDeleteView.run (st : Store) (u : User) (pk : Nat) : Store × DeleteOutcome :=
  match st.posts.find? (fun p => p.id == pk) with
  | none => (st, .notFound)
  | some post =>
      if ¬ PostDeleteView.test_func u post then (st, .forbidden pk)
      else ({ posts := st.posts.filter (fun p => p.id ≠ pk),
              documents := st.documents.filter (fun d => d.post_id ≠ pk) },
            .deleted)

/-- Outcome of a request to `download_document`.  `fileMissing` is the
"File not found" redirect for an absent payload, distinct from the 404 for
an absent document row. -/
inductive DownloadOutcome
  | notFound
  | redirectLogin
  | forbidden (postPk : Nat)
  | fileMissing (postPk : Nat)
  | ok (bytes : List Nat) (filename : String)
deriving DecidableEq

/-- `os.path.basename`: the final path segment. -/
def basename (path : String) : String :=
  ((path.splitOn "/").getLast?).getD path

/-- `download_document` (src/posts/views.py:213-242): 404 if the document row
is absent; redirect to login if unauthenticated; redirect to the post detail
unless the caller may view the parent post (the check is the same disjunction
as `PostDetailView.test_func`); "File not found" if the payload is absent;
otherwise the stored bytes with the basename of the stored path.  The file
system is the function `fileBytes` from paths to stored payloads. -/
def download_document (fileBytes : String → Option (List Nat)) (st : Store)
    (user : Option User) (pk : Nat) : DownloadOutcome :=
  match st.documents.find? (fun d => d.id == pk) with
  | none => .notFound
  | some doc =>
      match st.posts.find? (fun p => p.id == doc.post_id) with
      | none => .notFound
      | some post =>
          match user with
          | none => .redirectLogin
          | some u =>
              if ¬ (post.is_public || u.id == post.author_id ||
                    post.shared_with.contains u.id || u.is_superuser) then
                .forbidden post.id
              else
                match fileBytes doc.file_path with
                | none => .fileMissing post.id
                | some bs => .ok bs (basename doc.file_path)

/-- Demo identities and inputs used by the concrete evaluations below. -/
def staffAuthor : User := { id := 1, is_staff := true, is_superuser := false }

def otherUser : User := { id := 2, is_staff := false, is_superuser := false }

def sharedUser : User := { id := 3, is_staff := false, is_superuser := false }

def rootUser : User := { id := 4, is_staff := true, is_superuser := true }

def privatePost : Post :=
  { id := 1, title := "Hello", content := "hi", author_id := 1,
    date_posted := 10, is_public := false, shared_with := [3] }

def publicPost : Post :=
  { id := 2, title := "World", content := "yo", author_id := 1,
    date_posted := 20, is_public := true, shared_with := [] }

def notesDoc : Document :=
  { id := 1, post_id := 1, file_path := "media/post_documents/notes.txt",
    description := "notes" }

def demoStore : Store := { posts := [privatePost, publicPost], documents := [notesDoc] }

def helloInput : PostInput :=
  { title := "Hello", content := "hi", is_public := true, shared_with := [] }

def threeDocs : List DocInput :=
  [ { file_path := "post_documents/a.txt", description := "" },
    { file_path := "post_documents/b.txt", description := "" },
    { file_path := "post_documents/c.txt", description := "" } ]

/-- Demo file system: only the payload of the demo document is stored. -/
def demoFS : String → Option (List Nat) := fun path =>
  if path = "media/post_documents/notes.txt" then some [110, 111] else none

/-! ### Helper lemmas -/

/-- For an authenticated user the detail test is the four-way disjunction that
`download_document` writes out inline. -/
theorem canView_some_eq (u : User) (p : Post) :
    canView (some u) p =
      (p.is_public || u.id == p.author_id || p.shared_with.contains u.id ||
        u.is_superuser) := by
  simp only [canView, PostDetailView.test_func, List.elem_eq_mem]
  by_cases hp : p.is_public = true
  · simp [hp]
  · by_cases ha : u.id = p.author_id
    · simp [hp, ha]
    · by_cases hs : u.id ∈ p.shared_with
      · simp [hp, ha, hs]
      · cases hb : u.is_superuser <;> simp [hp, ha, hs, hb]

/-- Every surviving join row of a post projects back to that post, and its
existence certifies the WHERE clause: the post is public or shared with the
user. -/
theorem mem_matchRows {u : User} {p q : Post} (h : q ∈ matchRows u p) :
    q = p ∧ (p.is_public = true ∨ u.id ∈ p.shared_with) := by
  unfold matchRows at h
  rcases List.mem_map.mp h with ⟨r, hr, hfst⟩
  have hpred : rowMatches u r = true := List.of_mem_filter hr
  have hmem : r ∈ joinRows p := List.mem_of_mem_filter hr
  unfold joinRows at hmem
  unfold rowMatches at hpred
  cases hsw : p.shared_with with
  | nil =>
      rw [hsw] at hmem
      simp only [List.mem_singleton] at hmem
      subst hmem
      have hnone : ((none : Option Nat) == some u.id) = false := rfl
      rw [hnone, Bool.or_false] at hpred
      exact ⟨hfst.symm, Or.inl hpred⟩
  | cons i ids =>
      rw [hsw] at hmem
      rcases List.mem_map.mp hmem with ⟨j, hj, rfl⟩
      rcases Bool.or_eq_true_iff.mp hpred with hpub | hjeq
      · exact ⟨hfst.symm, Or.inl hpub⟩
      · have hju : j = u.id := by simpa using hjeq
        refine ⟨hfst.symm, Or.inr ?_⟩
        rw [← hju]
        exact hj

/-- Conversely, a post that satisfies the WHERE clause contributes at least
one surviving join row, namely itself. -/
theorem matchRows_self {u : User} {p : Post}
    (h : p.is_public = true ∨ u.id ∈ p.shared_with) : p ∈ matchRows u p := by
  unfold matchRows joinRows
  cases hsw : p.shared_with with
  | nil =>
      rcases h with hpub | hshared
      · refine List.mem_map.mpr ⟨(p, none), List.mem_filter.mpr ⟨?_, ?_⟩, rfl⟩
        · exact List.mem_singleton.mpr rfl
        · simp [rowMatches, hpub]
      · rw [hsw] at hshared
        simp at hshared
  | cons i ids =>
      rcases h with hpub | hshared
      · refine List.mem_map.mpr ⟨(p, some i), List.mem_filter.mpr ⟨?_, ?_⟩, rfl⟩
        · exact List.mem_map.mpr ⟨i, List.mem_cons_self _ _, rfl⟩
        · simp [rowMatches, hpub]
      · rw [hsw] at hshared
        refine List.mem_map.mpr ⟨(p, some u.id), List.mem_filter.mpr ⟨?_, ?_⟩, rfl⟩
        · exact List.mem_map.mpr ⟨u.id, hshared, rfl⟩
        · simp [rowMatches]

/-- SELECT DISTINCT only drops rows. -/
theorem distinctById_sublist : (l : List Post) → (distinctById l).Sublist l
  | [] => by simp [distinctById]
  | p :: ps => by
      rw [distinctById]
      exact List.Sublist.cons₂ p
        ((distinctById_sublist (ps.filter fun q => q.id ≠ p.id)).trans
          (List.filter_sublist ps))
termination_by l => l.length
decreasing_by
  simp only [List.length_cons]
  exact Nat.lt_succ_of_le (List.length_filter_le _ _)

/-- SELECT DISTINCT keeps each primary key at most once. -/
theorem distinctById_pairwise : (l : List Post) →
    (distinctById l).Pairwise (fun a b => a.id ≠ b.id)
  | [] => by simp [distinctById]
  | p :: ps => by
      rw [distinctById]
      refine List.Pairwise.cons (fun q hq => ?_)
        (distinctById_pairwise (ps.filter fun q => q.id ≠ p.id))
      have hq2 : q ∈ ps.filter (fun q => q.id ≠ p.id) :=
        (distinctById_sublist _).subset hq
      have hne : q.id ≠ p.id := by simpa using List.of_mem_filter hq2
      exact hne.symm
termination_by l => l.length
decreasing_by
  simp only [List.length_cons]
  exact Nat.lt_succ_of_le (List.length_filter_le _ _)

/-- As long as equal primary keys mean equal rows, SELECT DISTINCT keeps every
row value that was present. -/
theorem mem_distinctById : (l : List Post) →
    (∀ a ∈ l, ∀ b ∈ l, a.id = b.id → a = b) →
    ∀ x ∈ l, x ∈ distinctById l
  | [] => by intro _ x hx; cases hx
  | p :: ps => by
      intro hinj x hx
      rw [distinctById]
      rcases List.mem_cons.mp hx with rfl | hxs
      · exact List.mem_cons_self _ _
      · by_cases hid : x.id = p.id
        · have hxp : x = p := hinj x hx p (List.mem_cons_self p ps) hid
          rw [hxp]
          exact List.mem_cons_self _ _
        · have hxf : x ∈ ps.filter (fun q => q.id ≠ p.id) :=
            List.mem_filter.mpr ⟨hxs, by simpa using hid⟩
          have hinj2 : ∀ a ∈ ps.filter (fun q => q.id ≠ p.id),
              ∀ b ∈ ps.filter (fun q => q.id ≠ p.id), a.id = b.id → a = b := by
            intro a ha b hb hab
            exact hinj a (List.mem_cons_of_mem _ (List.mem_of_mem_filter ha))
              b (List.mem_cons_of_mem _ (List.mem_of_mem_filter hb)) hab
          exact List.mem_cons_of_mem _
            (mem_distinctById (ps.filter fun q => q.id ≠ p.id) hinj2 x hxf)
termination_by l => l.length
decreasing_by
  simp only [List.length_cons]
  exact Nat.lt_succ_of_le (List.length_filter_le _ _)

/-- A list whose elements are all one and the same post is trivially sorted. -/
theorem pairwise_of_all_eq (p : Post) : (xs : List Post) → (∀ x ∈ xs, x = p) →
    xs.Pairwise postLe
  | [], _ => List.Pairwise.nil
  | x :: xs, h => by
      refine List.Pairwise.cons (fun y hy => ?_) (pairwise_of_all_eq p xs ?_)
      · rw [h x (List.mem_cons_self _ _), h y (List.mem_cons_of_mem _ hy)]
        show p.date_posted ≤ p.date_posted
        exact Nat.le_refl _
      · intro z hz
        exact h z (List.mem_cons_of_mem _ hz)

/-- Expanding a date-sorted list of posts into its surviving join rows keeps
the rows date-sorted, because every row of a post carries that post's date. -/
theorem pairwise_flatMap (u : User) : (l : List Post) → l.Pairwise postLe →
    (l.flatMap (matchRows u)).Pairwise postLe
  | [], _ => by simp
  | p :: ps, h => by
      rw [List.flatMap_cons]
      rcases List.pairwise_cons.mp h with ⟨hrel, htail⟩
      refine List.pairwise_append.mpr
        ⟨pairwise_of_all_eq p _ (fun x hx => (mem_matchRows hx).1),
         pairwise_flatMap u ps htail, ?_⟩
      intro a ha b hb
      rcases List.mem_flatMap.mp hb with ⟨q, hq, hbq⟩
      rw [(mem_matchRows ha).1, (mem_matchRows hbq).1]
      exact hrel q hq

/-! ### Claim theorems -/

/-- C1: the claim says a create whose document formset fails validation
persists nothing, and the code docstring promises the same ("either post and
documents are saved, or none are").  The code instead reaches
`self.object = form.save()` before validating the formset and then leaves
`transaction.atomic()` by a plain `return self.form_invalid(form)`, which
commits: on a store that was empty, a staff create with a valid post form and
an invalid three-document formset ends with the post row persisted and zero
document rows. -/
theorem create_invalid_formset_persists_post :
    PostCreateView.run { posts := [], documents := [] } staffAuthor 7 20 5
        helloInput true false threeDocs =
      ({ posts := [{ id := 7, title := "Hello", content := "hi", author_id := 1,
                     date_posted := 5, is_public := true, shared_with := [] }],
         documents := [] },
       CreateOutcome.invalidForm) := rfl

/-- C2: a public post is viewable by every caller, authenticated or not; a
private post is not viewable by an unauthenticated caller, nor by an
authenticated user who is not the author, not shared with, and not a
superuser. -/
theorem canView_characterization (p : Post) :
    (p.is_public = true → ∀ user : Option User, canView user p = true) ∧
    (p.is_public = false → canView none p = false) ∧
    (p.is_public = false → ∀ u : User,
      u.id ≠ p.author_id → u.id ∉ p.shared_with → u.is_superuser = false →
      canView (some u) p = false) := by
  refine ⟨fun hpub user => ?_, fun hpriv => ?_, fun hpriv u ha hs hsup => ?_⟩
  · cases user <;> simp [canView, PostDetailView.test_func, hpub]
  · simp [canView, PostDetailView.test_func, hpriv]
  · rw [canView_some_eq, hpriv, hsup]
    have ha2 : (u.id == p.author_id) = false := by simpa using ha
    have hs2 : p.shared_with.contains u.id = false := by
      simp [List.elem_eq_mem, hs]
    simp only [ha2, hs2, Bool.false_or, Bool.or_false]

/-- C2 witness: the unrelated user 2 cannot view the private post shared only
with user 3 and authored by user 1. -/
theorem canView_characterization_witness :
    canView (some otherUser) privatePost = false :=
  (canView_characterization privatePost).2.2 rfl otherUser
    (by decide) (by decide) rfl

/-- C5: `canModify` (the common `test_func` of `PostUpdateView` and
`PostDeleteView`) holds exactly for the author or a superuser, and an update
request by anyone else is answered with the forbidden redirect while the
store — post rows and document rows alike — is returned unchanged. -/
theorem canModify_characterization (u : User) (p : Post) :
    (canModify u p = true ↔ u.id = p.author_id ∨ u.is_superuser = true) ∧
    PostUpdateView.test_func u p = canModify u p ∧
    PostDeleteView.test_func u p = canModify u p ∧
    (∀ st pk post input postFormValid docFormsetValid ops,
      st.posts.find? (fun q => q.id == pk) = some post →
      canModify u post = false →
      PostUpdateView.run st u pk input postFormValid docFormsetValid ops =
        (st, .forbidden pk)) := by
  refine ⟨?_, rfl, rfl, ?_⟩
  · simp [canModify, PostUpdateView.test_func]
  · intro st pk post input postFormValid docFormsetValid ops hfind hmod
    unfold PostUpdateView.run
    rw [hfind]
    have : PostUpdateView.test_func u post = false := hmod
    simp [this]

/-- C5 witness: user 2 (not the author of the private post, not a superuser)
sends an otherwise valid update; the response is the forbidden redirect to the
post detail and the store is untouched. -/
theorem canModify_characterization_witness :
    PostUpdateView.run demoStore otherUser 1 helloInput true true [] =
      (demoStore, .forbidden 1) :=
  (canModify_characterization otherUser privatePost).2.2.2 demoStore 1
    privatePost helloInput true true [] rfl rfl

/-- C6: `canCreate` (the `test_func` of `PostCreateView`) holds exactly for
staff users, and a create request by a non-staff user is answered with the
forbidden redirect while the store is returned unchanged, whatever the
submitted forms contain. -/
theorem canCreate_characterization (u : User) :
    (canCreate u = true ↔ u.is_staff = true) ∧
    (canCreate u = false →
      ∀ st newId firstDocId dateNow input postFormValid docFormsetValid docs,
        PostCreateView.run st u newId firstDocId dateNow input
            postFormValid docFormsetValid docs = (st, .forbidden)) := by
  refine ⟨Iff.rfl, ?_⟩
  intro hstaff st newId firstDocId dateNow input postFormValid docFormsetValid docs
  unfold PostCreateView.run
  have : PostCreateView.test_func u = false := hstaff
  simp [this]

/-- C6 witness: the non-staff user 2 submitting a fully valid create request
gets the forbidden redirect and the demo store keeps its row counts. -/
theorem canCreate_characterization_witness :
    PostCreateView.run demoStore otherUser 7 20 5 helloInput true true [] =
      (demoStore, .forbidden) :=
  (canCreate_characterization otherUser).2 rfl demoStore 7 20 5 helloInput
    true true []

/-- C7: when viewing a private post is denied, the two failure modes are kept
apart: an unauthenticated caller is redirected to login, an authenticated but
unauthorized caller is redirected to the post list. -/
theorem detail_no_permission_modes (st : Store) (pk : Nat) (post : Post)
    (hfind : st.posts.find? (fun p => p.id == pk) = some post)
    (hpriv : post.is_public = false) :
    PostDetailView.run st none pk = .redirectLogin ∧
    (∀ u : User, canView (some u) post = false →
      PostDetailView.run st (some u) pk = .redirectPostList) := by
  constructor
  · unfold PostDetailView.run
    rw [hfind]
    simp [PostDetailView.test_func, hpriv]
  · intro u hview
    unfold PostDetailView.run
    rw [hfind]
    have : PostDetailView.test_func (some u) post = false := hview
    simp [this]

/-- C7 witness: on the demo store, the private post 1 sends an unauthenticated
caller to login and the unrelated user 2 to the post list. -/
theorem detail_no_permission_modes_witness :
    PostDetailView.run demoStore none 1 = .redirectLogin ∧
    PostDetailView.run demoStore (some otherUser) 1 = .redirectPostList :=
  ⟨(detail_no_permission_modes demoStore 1 privatePost rfl rfl).1,
   (detail_no_permission_modes demoStore 1 privatePost rfl rfl).2 otherUser
     canView_characterization_witness⟩

/-- C8: after a successful delete of post `pk`, no surviving document row
references `pk` — the cascade declared on `Document.post` leaves no orphans. -/
theorem delete_cascades_documents (st : Store) (u : User) (pk : Nat)
    (d : Document)
    (hdel : (PostDeleteView.run st u pk).2 = .deleted)
    (hd : d ∈ (PostDeleteView.run st u pk).1.documents) :
    d.post_id ≠ pk := by
  unfold PostDeleteView.run at hdel hd
  cases hfind : st.posts.find? (fun p => p.id == pk) with
  | none => rw [hfind] at hdel; exact absurd hdel (by simp)
  | some post =>
      rw [hfind] at hdel hd
      by_cases htest : PostDeleteView.test_func u post
      · simp only [htest, not_true_eq_false, if_false] at hd
        have := List.of_mem_filter hd
        simpa using this
      · simp [htest] at hdel

/-- C8 witness: the author deletes post 1 of the demo store; the surviving
document row for post 2 does not reference post 1. -/
theorem delete_cascades_documents_witness :
    ({ id := 9, post_id := 2, file_path := "media/post_documents/o.txt",
       description := "" } : Document).post_id ≠ 1 :=
  delete_cascades_documents
    { posts := [privatePost, publicPost],
      documents := [{ id := 9, post_id := 2,
                      file_path := "media/post_documents/o.txt",
                      description := "" }] }
    staffAuthor 1 _ rfl (by simp [PostDeleteView.run, privatePost, publicPost,
      PostDeleteView.test_func, staffAuthor])

/-- C10: modify permission implies view permission — whenever the update or
delete test grants a user access to a post, the detail test does too. -/
theorem modify_implies_view (u : User) (p : Post) :
    (PostUpdateView.test_func u p = true → canView (some u) p = true) ∧
    (PostDeleteView.test_func u p = true → canView (some u) p = true) := by
  have h : (u.id == p.author_id || u.is_superuser) = true →
      canView (some u) p = true := by
    intro hmod
    rw [canView_some_eq]
    rcases Bool.or_eq_true_iff.mp hmod with ha | hs
    · simp [ha]
    · simp [hs]
  exact ⟨h, h⟩

/-- C10 witness: the author of the private post passes the update test and the
detail test grants view access as well. -/
theorem modify_implies_view_witness :
    canView (some staffAuthor) privatePost = true :=
  (modify_implies_view staffAuthor privatePost).1 rfl

/-- C4: for every authenticated user, the list queryset returns every post
when the user is a superuser and otherwise exactly the posts that are public
or shared with the user; in both cases each post id appears at most once and
the result is ordered by date posted descending.  The hypothesis is the
primary-key constraint of the post table. -/
theorem get_queryset_characterization (u : User) (posts : List Post)
    (hid : posts.Pairwise (fun a b => a.id ≠ b.id)) :
    (∀ p, p ∈ PostListView.get_queryset u posts ↔
        p ∈ posts ∧
          (u.is_superuser = true ∨ p.is_public = true ∨ u.id ∈ p.shared_with)) ∧
    (PostListView.get_queryset u posts).Pairwise (fun a b => a.id ≠ b.id) ∧
    (PostListView.get_queryset u posts).Sorted postLe := by
  have hperm : List.Perm (sortPosts posts) posts :=
    List.perm_insertionSort postLe posts
  have hsymm : Symmetric (fun a b : Post => a.id ≠ b.id) := fun a b h => h.symm
  have hinj : ∀ a ∈ posts, ∀ b ∈ posts, a.id = b.id → a = b := by
    intro a ha b hb hab
    by_contra hne
    exact (hid.forall hsymm ha hb hne) hab
  unfold PostListView.get_queryset
  cases hsup : u.is_superuser with
  | true =>
    simp only [hsup, if_true]
    refine ⟨fun p => ?_, ?_, ?_⟩
    · rw [hperm.mem_iff]
      simp
    · exact (hperm.pairwise_iff (fun h => Ne.symm h)).mpr hid
    · exact List.sorted_insertionSort postLe posts
  | false =>
    simp only [hsup, Bool.false_eq_true, if_false]
    have hmemL : ∀ p, p ∈ (sortPosts posts).flatMap (matchRows u) →
        p ∈ posts ∧ (p.is_public = true ∨ u.id ∈ p.shared_with) := by
      intro p hp
      rcases List.mem_flatMap.mp hp with ⟨q, hq, hpq⟩
      rcases mem_matchRows hpq with ⟨rfl, hcond⟩
      exact ⟨hperm.mem_iff.mp hq, hcond⟩
    have hinjL : ∀ a ∈ (sortPosts posts).flatMap (matchRows u),
        ∀ b ∈ (sortPosts posts).flatMap (matchRows u), a.id = b.id → a = b := by
      intro a ha b hb hab
      exact hinj a (hmemL a ha).1 b (hmemL b hb).1 hab
    refine ⟨fun p => ?_, distinctById_pairwise _, ?_⟩
    · constructor
      · intro hp
        have hpL := (distinctById_sublist _).subset hp
        rcases hmemL p hpL with ⟨hpp, hcond⟩
        exact ⟨hpp, Or.inr hcond⟩
      · rintro ⟨hpp, hcond⟩
        rcases hcond with hcond | hcond
        · exact absurd hcond (by simp)
        · refine mem_distinctById _ hinjL p ?_
          exact List.mem_flatMap.mpr ⟨p, hperm.mem_iff.mpr hpp, matchRows_self hcond⟩
    · exact List.Pairwise.sublist (distinctById_sublist _)
        (pairwise_flatMap u _ (List.sorted_insertionSort postLe posts))

/-- C4 witness: on the two demo posts, user 3 (shared with the private post)
sees the private post in the list, and the characterization is applied at
that concrete input. -/
theorem get_queryset_characterization_witness :
    privatePost ∈ PostListView.get_queryset sharedUser [privatePost, publicPost] ↔
      privatePost ∈ [privatePost, publicPost] ∧
        (sharedUser.is_superuser = true ∨ privatePost.is_public = true ∨
          sharedUser.id ∈ privatePost.shared_with) :=
  (get_queryset_characterization sharedUser [privatePost, publicPost]
    (by decide)).1 privatePost

/-- C9: an authenticated non-superuser author of a private post shared with
nobody relevant does not see that post in the list queryset — the filter is
public-or-shared-with only — even though the detail test grants the author
view access. -/
theorem own_private_unshared_excluded (u : User) (posts : List Post) (p : Post)
    (hsup : u.is_superuser = false) (hauth : p.author_id = u.id)
    (hpriv : p.is_public = false) (hsh : u.id ∉ p.shared_with) :
    p ∉ PostListView.get_queryset u posts ∧ canView (some u) p = true := by
  constructor
  · intro hmem
    unfold PostListView.get_queryset at hmem
    rw [hsup] at hmem
    simp only [Bool.false_eq_true, if_false] at hmem
    have hL := (distinctById_sublist _).subset hmem
    rcases List.mem_flatMap.mp hL with ⟨q, _, hpq⟩
    rcases mem_matchRows hpq with ⟨rfl, hcond⟩
    rcases hcond with hcond | hcond
    · rw [hpriv] at hcond
      cases hcond
    · exact hsh hcond
  · rw [canView_some_eq]
    have : (u.id == p.author_id) = true := by simp [hauth]
    simp [this]

/-- C9 witness: user 1 authored the private post (shared only with user 3),
is no superuser, and indeed does not get it listed while the detail test
grants access. -/
theorem own_private_unshared_excluded_witness :
    privatePost ∉ PostListView.get_queryset staffAuthor [privatePost, publicPost] ∧
      canView (some staffAuthor) privatePost = true :=
  own_private_unshared_excluded staffAuthor [privatePost, publicPost] privatePost
    rfl rfl rfl (by decide)

/-- C3: the download operation evaluates its checks in order: 404 when the
document row is absent; else the login redirect when the caller is
unauthenticated; else the forbidden redirect unless the caller may view the
parent post; else the file-not-found outcome when the stored payload is
absent; else exactly the stored bytes under the final path segment of the
stored file path. -/
theorem download_document_characterization
    (fileBytes : String → Option (List Nat)) (st : Store) (u : User) (pk : Nat) :
    (st.documents.find? (fun d => d.id == pk) = none →
      ∀ user, download_document fileBytes st user pk = .notFound) ∧
    (∀ doc post,
      st.documents.find? (fun d => d.id == pk) = some doc →
      st.posts.find? (fun p => p.id == doc.post_id) = some post →
      download_document fileBytes st none pk = .redirectLogin ∧
      (canView (some u) post = false →
        download_document fileBytes st (some u) pk = .forbidden post.id) ∧
      (canView (some u) post = true → fileBytes doc.file_path = none →
        download_document fileBytes st (some u) pk = .fileMissing post.id) ∧
      (∀ bs, canView (some u) post = true → fileBytes doc.file_path = some bs →
        download_document fileBytes st (some u) pk =
          .ok bs (basename doc.file_path))) := by
  constructor
  · intro hnone user
    unfold download_document
    rw [hnone]
  · intro doc post hdoc hpost
    have hcond : (post.is_public || u.id == post.author_id ||
        post.shared_with.contains u.id || u.is_superuser) = canView (some u) post :=
      (canView_some_eq u post).symm
    refine ⟨?_, ?_, ?_, ?_⟩
    · unfold download_document
      simp only [hdoc, hpost]
    · intro hview
      unfold download_document
      simp only [hdoc, hpost, hcond, hview]
      simp
    · intro hview hfile
      unfold download_document
      simp only [hdoc, hpost, hcond, hview]
      simp [hfile]
    · intro bs hview hfile
      unfold download_document
      simp only [hdoc, hpost, hcond, hview]
      simp [hfile]

/-- C3 witness: user 3 — shared with the private parent post — downloads the
demo document and receives exactly the stored bytes with the basename of the
stored path. -/
theorem download_document_characterization_witness :
    download_document demoFS demoStore (some sharedUser) 1 =
      .ok [110, 111] (basename notesDoc.file_path) :=
  ((download_document_characterization demoFS demoStore sharedUser 1).2 notesDoc
    privatePost rfl rfl).2.2.2 [110, 111] (by decide) rfl
